import Mathlib

/-!
Verification of the Sunshine class assigner

Shallow embedding of `src/Sunshine.py` (class `SunshineDistributor`) and of
`src/Analysis.py` (`analyze_class_balance`), with theorems settling the
specification claims about snake distribution, tier partitioning, grade
ranking, the orchestrating `run`, and the balance report's average row.

Modelling conventions:
* a pandas `DataFrame` row becomes a `Student` record; scores are modelled
  as integers embedded in the ordered field `ℚ` where the report needs means
  (the claims under study only compare scores, they never exercise binary
  floating-point rounding);
* `random.shuffle(class_indices)` is modelled by passing the shuffled list
  itself as a parameter (one per `_distribute_sub_group` call, indexed by
  call order), with the hypothesis that it is a permutation of `[1..K]`;
* `sort_values` is modelled by a stable insertion sort; pandas' default
  `kind='quicksort'` leaves the relative order of tied keys unspecified,
  and no theorem below depends on the tie order;
* `sys.exit` on insufficient data is modelled by `Option`: `none` is the
  aborted run that produces no output.
-/

namespace Sunshine

/-- One roster row of `Sunshine.py`: 姓名 (modelled as an opaque numeric
identity), 性别, 总分, and the optional 城乡 field (empty string when the
column is absent). -/
structure Student where
  name : Nat
  gender : String
  score : Int
  rural : String
deriving DecidableEq, Repr

/-- The descending-score ordering used by `sort_values(by='总分', ascending=False)`. -/
def scoreDescOrder (a b : Student) : Prop := b.score ≤ a.score

instance : DecidableRel scoreDescOrder :=
  fun a b => inferInstanceAs (Decidable (b.score ≤ a.score))

/-- Model of `df.sort_values(by='总分', ascending=False)` (lines 65 and 90 of
`Sunshine.py`): sort by score descending. -/
def sortByScoreDesc (l : List Student) : List Student :=
  List.insertionSort scoreDescOrder l

/-- Lines 72-78 of `Sunshine.py`: the snake pattern.  The `while` loop
appends the block `class_indices ++ reversed(class_indices)` until the
pattern is at least `n` long, and line 78 truncates it to length `n`
(`snake_pattern[:len(sub_df)]`).  Since each loop iteration appends one
(nonempty) block, repeating the block `n` times is always enough, and the
truncation makes the result identical to the loop's. -/
def snakePattern (classIndices : List Nat) (n : Nat) : List Nat :=
  ((List.replicate n (classIndices ++ classIndices.reverse)).flatten).take n

/-- Model of `_distribute_sub_group` (lines 61-79 of `Sunshine.py`): empty input is a
no-op; otherwise sort the sub-group by score descending and assign class ids
positionally from the snake pattern.  `classIndices` is the shuffled
`list(range(1, K + 1))` of lines 68-69. -/
def distributeSubGroup (classIndices : List Nat) (sub : List Student) :
    List (Student × Nat) :=
  if sub.isEmpty then []
  else
    let sorted := sortByScoreDesc sub
    sorted.zip (snakePattern classIndices sorted.length)

/-- The class column of a distributed block. -/
def assignedClasses (out : List (Student × Nat)) : List Nat := out.map Prod.snd

/-- Line 97 of `Sunshine.py`: `df.iloc[:self.top_N]`. -/
def tierTop (topN : Nat) (l : List Student) : List Student := l.take topN

/-- Line 98 of `Sunshine.py`: `df.iloc[-self.bot_N:]`.  Python's negative
slice start `-bot_N` means "last `bot_N` rows" only when `bot_N > 0`;
`df.iloc[-0:]` is `df.iloc[0:]`, the whole frame. -/
def tierBot (botN : Nat) (l : List Student) : List Student :=
  if botN = 0 then l else l.drop (l.length - botN)

/-- Line 100 of `Sunshine.py`: `df.iloc[self.top_N:-self.bot_N]`.  The slice
stop `-bot_N` is `len - bot_N` when `bot_N > 0` but `0` when `bot_N = 0`
(so the slice is then empty). -/
def tierMid (topN botN : Nat) (l : List Student) : List Student :=
  if botN = 0 then [] else (l.take (l.length - botN)).drop topN

/-- Lines 108-122 of `Sunshine.py`: split a layer into demographic
sub-groups, four-way by 性别 × 城乡 when the 城乡 column is present,
two-way by 性别 otherwise. -/
def subGroups (hasRural : Bool) (layer : List Student) : List (List Student) :=
  if hasRural then
    [ layer.filter (fun s => s.gender == "男" && s.rural == "城区"),
      layer.filter (fun s => s.gender == "男" && s.rural == "乡下"),
      layer.filter (fun s => s.gender == "女" && s.rural == "城区"),
      layer.filter (fun s => s.gender == "女" && s.rural == "乡下") ]
  else
    [ layer.filter (fun s => s.gender == "男"),
      layer.filter (fun s => s.gender == "女") ]

/-- Line 87 of `Sunshine.py`:
`df['总分'].rank(method='min', ascending=False)` — the grade rank of a row
is one plus the number of rows with a strictly greater score. -/
def gradeRank (roster : List Student) (s : Student) : Nat :=
  roster.countP (fun t => s.score < t.score) + 1

/-- Line 132 of `Sunshine.py`: the final ordering, class ascending then
score descending. -/
def classScoreOrder (a b : Student × Nat) : Prop :=
  a.2 < b.2 ∨ (a.2 = b.2 ∧ b.1.score ≤ a.1.score)

instance : DecidableRel classScoreOrder :=
  fun a b =>
    inferInstanceAs (Decidable (a.2 < b.2 ∨ (a.2 = b.2 ∧ b.1.score ≤ a.1.score)))

/-- Model of `result.sort_values(by=['班级', '总分'], ascending=[True, False])`. -/
def finalSort (l : List (Student × Nat)) : List (Student × Nat) :=
  List.insertionSort classScoreOrder l

/-- Number of `random.shuffle` draws a run makes: one per sub-group, three
layers of four (rural) or two (no rural) groups each. -/
def numDraws (hasRural : Bool) : Nat := if hasRural then 12 else 6

/-- Lines 97-125 of `Sunshine.py`: the list of sub-groups the loop
distributes, in call order — the three tiers of the score-sorted roster,
each split into its demographic groups. -/
def runGroups (K topPer botPer : Nat) (hasRural : Bool)
    (roster : List Student) : List (List Student) :=
  let df := sortByScoreDesc roster
  let topN := topPer * K
  let botN := botPer * K
  (([tierTop topN df, tierMid topN botN df, tierBot botN df]).map
    (subGroups hasRural)).flatten

/-- Lines 124-127 of `Sunshine.py`: distribute every sub-group (the `i`-th
`_distribute_sub_group` call consuming the shuffled class indices
`perms i`) and concatenate the results (`pd.concat(assigned_list)`). -/
def runAssigned (K topPer botPer : Nat) (hasRural : Bool)
    (perms : Nat → List Nat) (roster : List Student) : List (Student × Nat) :=
  ((runGroups K topPer botPer hasRural roster).enum.map
    (fun g => distributeSubGroup (perms g.1) g.2)).flatten

/-- Model of `run` (lines 81-139 of `Sunshine.py`) on the cleaned roster: sort by
score descending, abort (`sys.exit(1)`, modelled as `none`) when fewer than
`top_N + bot_N` rows remain, otherwise slice the three tiers, split each
into demographic sub-groups, snake-distribute every sub-group, concatenate,
and sort by class then score.  The 年级排名 column of line 87 is modelled
separately by `gradeRank`, which does not influence the assignment. -/
def run (K topPer botPer : Nat) (hasRural : Bool) (perms : Nat → List Nat)
    (roster : List Student) : Option (List (Student × Nat)) :=
  if (sortByScoreDesc roster).length < topPer * K + botPer * K then none
  else some (finalSort (runAssigned K topPer botPer hasRural perms roster))

/-! ## The balance report of `Analysis.py` -/

/-- One row of the per-class statistics table built by `calc_stats`
(lines 34-50 of `Analysis.py`).  All entries live in `ℚ` because the
derived average row takes their mean. -/
structure StatRow where
  boys : ℚ
  girls : ℚ
  total : ℚ
  avgScore : ℚ
deriving DecidableEq, Repr

/-- Round-half-to-even (Python's `round` tie rule) to an integer. -/
def roundHalfEven (x : ℚ) : ℤ :=
  if x - ⌊x⌋ < 1/2 then ⌊x⌋
  else if 1/2 < x - ⌊x⌋ then ⌊x⌋ + 1
  else if ⌊x⌋ % 2 = 0 then ⌊x⌋ else ⌊x⌋ + 1

/-- Python's `round(x, 2)`. -/
def round2 (x : ℚ) : ℚ := (roundHalfEven (x * 100) : ℚ) / 100

/-- Model of `Series.mean()`: sum divided by length. -/
def meanQ (l : List ℚ) : ℚ := l.sum / (l.length : ℚ)

/-- Model of `calc_stats` (lines 34-50 of `Analysis.py`) on one class's rows:
counts of 男 and 女, headcount, and the rounded mean score. -/
def calcStats (g : List (Student × Nat)) : StatRow :=
  { boys := (g.countP (fun p => p.1.gender == "男") : ℚ)
    girls := (g.countP (fun p => p.1.gender == "女") : ℚ)
    total := (g.length : ℚ)
    avgScore := round2 (meanQ (g.map (fun p => (p.1.score : ℚ)))) }

/-- The group keys of `df.groupby('班级')`: the distinct class labels in
ascending order. -/
def classKeys (df : List (Student × Nat)) : List Nat :=
  List.insertionSort (· ≤ ·) (df.map Prod.snd).dedup

/-- Line 53 of `Analysis.py`: one `calc_stats` row per class. -/
def statRows (df : List (Student × Nat)) : List StatRow :=
  (classKeys df).map (fun c => calcStats (df.filter (fun p => p.2 == c)))

/-- Lines 57-61 of `Analysis.py`: the derived 平均 row is
`result.mean()`, the column-wise arithmetic mean over the per-class rows. -/
def avgRow (df : List (Student × Nat)) : StatRow :=
  { boys := meanQ ((statRows df).map StatRow.boys)
    girls := meanQ ((statRows df).map StatRow.girls)
    total := meanQ ((statRows df).map StatRow.total)
    avgScore := meanQ ((statRows df).map StatRow.avgScore) }

/-- The mean score over the whole labelled roster, the quantity the 平均
row does NOT recompute. -/
def wholeRosterMean (df : List (Student × Nat)) : ℚ :=
  meanQ (df.map (fun p => (p.1.score : ℚ)))

/-! ## Helper lemmas: repeated blocks and the snake pattern -/

theorem mem_range_one_iff {c K : Nat} : c ∈ List.range' 1 K ↔ 1 ≤ c ∧ c ≤ K := by
  rw [List.mem_range']
  constructor
  · rintro ⟨i, hi, rfl⟩; omega
  · intro h; exact ⟨c - 1, by omega, by omega⟩

theorem length_flatten_replicate (m : Nat) (b : List Nat) :
    ((List.replicate m b).flatten).length = m * b.length := by
  induction m with
  | zero => simp
  | succ k ih =>
    simp only [List.replicate_succ, List.flatten_cons, List.length_append, ih]
    ring

theorem count_flatten_replicate (m : Nat) (b : List Nat) (c : Nat) :
    ((List.replicate m b).flatten).count c = m * b.count c := by
  induction m with
  | zero => simp
  | succ k ih =>
    simp only [List.replicate_succ, List.flatten_cons, List.count_append, ih]
    ring

theorem take_flatten_replicate (b : List Nat) (hb : b ≠ []) :
    ∀ (m n : Nat), n ≤ m * b.length →
      ((List.replicate m b).flatten).take n =
        ((List.replicate (n / b.length) b).flatten) ++ b.take (n % b.length) := by
  intro m
  induction m with
  | zero =>
    intro n hn
    have : n = 0 := by simpa using hn
    subst this
    simp
  | succ k ih =>
    intro n hn
    have hL : 0 < b.length := List.length_pos.mpr hb
    by_cases h : n < b.length
    · rw [List.replicate_succ, List.flatten_cons,
        List.take_append_of_le_length (Nat.le_of_lt h),
        Nat.div_eq_of_lt h, Nat.mod_eq_of_lt h]
      simp
    · push_neg at h
      rw [List.replicate_succ, List.flatten_cons, List.take_append_eq_append_take,
        List.take_of_length_le h]
      have hsub : n - b.length ≤ k * b.length := by
        have hmul := hn
        rw [Nat.succ_mul] at hmul
        omega
      rw [ih (n - b.length) hsub, Nat.div_eq_sub_div hL h,
        Nat.mod_eq_sub_mod h, List.replicate_succ, List.flatten_cons,
        List.append_assoc]

theorem snakePattern_length (ci : List Nat) (hci : ci ≠ []) (n : Nat) :
    (snakePattern ci n).length = n := by
  have hL : 0 < (ci ++ ci.reverse).length := by
    have : 0 < ci.length := List.length_pos.mpr hci
    simp [List.length_append]
    omega
  have hn : n ≤ n * (ci ++ ci.reverse).length := Nat.le_mul_of_pos_right n hL
  rw [snakePattern, List.length_take, length_flatten_replicate]
  omega

theorem count_snakePattern (ci : List Nat) (hci : ci ≠ []) (n c : Nat) :
    (snakePattern ci n).count c =
      (n / (ci ++ ci.reverse).length) * ((ci ++ ci.reverse).count c) +
        (((ci ++ ci.reverse).take (n % (ci ++ ci.reverse).length)).count c) := by
  have hb : ci ++ ci.reverse ≠ [] := by
    intro h
    exact hci (List.append_eq_nil.mp h).1
  have hL : 0 < (ci ++ ci.reverse).length :=
    List.length_pos.mpr hb
  have hn : n ≤ n * (ci ++ ci.reverse).length := Nat.le_mul_of_pos_right n hL
  rw [snakePattern, take_flatten_replicate _ hb n n hn, List.count_append,
    count_flatten_replicate]

theorem count_take_block_le (ci : List Nat) (c1 c2 : Nat)
    (h1 : ci.count c1 = 1) (h2 : ci.count c2 = 1) (r : Nat) :
    ((ci ++ ci.reverse).take r).count c1 ≤
      ((ci ++ ci.reverse).take r).count c2 + 1 := by
  by_cases hr : r ≤ ci.length
  · rw [List.take_append_of_le_length hr]
    have hle : (ci.take r).count c1 ≤ 1 :=
      h1 ▸ (List.take_sublist r ci).count_le c1
    omega
  · push_neg at hr
    rw [List.take_append_eq_append_take, List.take_of_length_le (Nat.le_of_lt hr),
      List.count_append, List.count_append]
    have hle : (ci.reverse.take (r - ci.length)).count c1 ≤ 1 := by
      have h := (List.take_sublist (r - ci.length) ci.reverse).count_le c1
      rw [List.count_reverse] at h
      omega
    omega

theorem count_snakePattern_le (K : Nat) (ci : List Nat) (hK : 1 ≤ K)
    (hperm : ci.Perm (List.range' 1 K)) {c1 c2 : Nat}
    (hc1 : c1 ∈ List.range' 1 K) (hc2 : c2 ∈ List.range' 1 K) (n : Nat) :
    (snakePattern ci n).count c1 ≤ (snakePattern ci n).count c2 + 1 := by
  have hci : ci ≠ [] := by
    intro h
    subst h
    have hnil : List.range' 1 K = [] := hperm.symm.eq_nil
    have hlen : (List.range' 1 K).length = K := by simp
    rw [hnil] at hlen
    simp at hlen
    omega
  have h1 : ci.count c1 = 1 := by
    rw [hperm.count_eq]
    exact List.count_eq_one_of_mem (List.nodup_range' 1 K) hc1
  have h2 : ci.count c2 = 1 := by
    rw [hperm.count_eq]
    exact List.count_eq_one_of_mem (List.nodup_range' 1 K) hc2
  have hb1 : (ci ++ ci.reverse).count c1 = 2 := by
    rw [List.count_append, List.count_reverse, h1]
  have hb2 : (ci ++ ci.reverse).count c2 = 2 := by
    rw [List.count_append, List.count_reverse, h2]
  rw [count_snakePattern ci hci n c1, count_snakePattern ci hci n c2, hb1, hb2]
  have htail := count_take_block_le ci c1 c2 h1 h2
    (n % (ci ++ ci.reverse).length)
  omega

theorem ne_nil_of_perm_range {ci : List Nat} {K : Nat} (hK : 1 ≤ K)
    (hperm : ci.Perm (List.range' 1 K)) : ci ≠ [] := by
  intro h
  subst h
  have hnil : List.range' 1 K = [] := hperm.symm.eq_nil
  have hlen : (List.range' 1 K).length = K := by simp
  rw [hnil] at hlen
  simp at hlen
  omega

theorem count_range_perm_eq_one {ci : List Nat} {K c : Nat}
    (hperm : ci.Perm (List.range' 1 K)) (hc : c ∈ List.range' 1 K) :
    ci.count c = 1 := by
  rw [hperm.count_eq]
  exact List.count_eq_one_of_mem (List.nodup_range' 1 K) hc

theorem drop_flatten_replicate (b : List Nat) :
    ∀ (q m : Nat), q ≤ m →
      ((List.replicate m b).flatten).drop (q * b.length) =
        (List.replicate (m - q) b).flatten := by
  intro q
  induction q with
  | zero => intro m _; simp
  | succ k ih =>
    intro m hm
    cases m with
    | zero => omega
    | succ m2 =>
      have hsub : m2 + 1 - (k + 1) = m2 - k := by omega
      rw [List.replicate_succ, List.flatten_cons]
      have harith : (k + 1) * b.length = b.length + k * b.length := by ring
      rw [harith, List.drop_append, hsub]
      exact ih m2 (by omega)

theorem window_flatten_replicate (b : List Nat) (m2 r : Nat)
    (hr : r < b.length) :
    (((List.replicate (m2 + 2) b).flatten).drop r).take b.length =
      b.drop r ++ b.take r := by
  have hrep : List.replicate (m2 + 2) b = b :: b :: List.replicate m2 b := rfl
  rw [hrep, List.flatten_cons, List.flatten_cons,
    List.drop_append_of_le_length (Nat.le_of_lt hr),
    List.take_append_eq_append_take]
  have hlen : (b.drop r).length = b.length - r := List.length_drop r b
  rw [List.take_of_length_le (by rw [hlen]; omega)]
  congr 1
  rw [hlen]
  have harith : b.length - (b.length - r) = r := by omega
  rw [harith, List.take_append_of_le_length (Nat.le_of_lt hr)]

theorem count_window_snakePattern (ci : List Nat) (hci : ci ≠ [])
    (n s c : Nat) (hwin : s + (ci ++ ci.reverse).length ≤ n) :
    (((snakePattern ci n).drop s).take ((ci ++ ci.reverse).length)).count c =
      (ci ++ ci.reverse).count c := by
  have hb : ci ++ ci.reverse ≠ [] := fun h => hci (List.append_eq_nil.mp h).1
  have hcipos : 0 < ci.length := List.length_pos.mpr hci
  have hL2 : 2 ≤ (ci ++ ci.reverse).length := by
    simp [List.length_append]
    omega
  set b := ci ++ ci.reverse with hbdef
  set L := b.length with hLdef
  set q := s / L with hqdef
  set r := s % L with hrdef
  have hdm : L * q + r = s := Nat.div_add_mod s L
  have hcomm : q * L = L * q := Nat.mul_comm q L
  have hrL : r < L := Nat.mod_lt s (by omega)
  have hmul : 2 * q ≤ L * q := Nat.mul_le_mul_right q hL2
  have hqn : q + 2 ≤ n := by omega
  rw [snakePattern, List.drop_take, List.take_take,
    Nat.min_eq_left (by omega)]
  have hsplit : ((List.replicate n b).flatten).drop s =
      (((List.replicate n b).flatten).drop (q * L)).drop r := by
    rw [List.drop_drop]
    congr 1
    omega
  rw [hsplit, drop_flatten_replicate b q n (by omega)]
  obtain ⟨m2, hm2⟩ : ∃ m2, n - q = m2 + 2 := ⟨n - q - 2, by omega⟩
  rw [hm2, window_flatten_replicate b m2 r hrL, List.count_append]
  have hparts : (b.take r).count c + (b.drop r).count c = b.count c := by
    rw [← List.count_append, List.take_append_drop]
  omega

theorem assignedClasses_distributeSubGroup (ci : List Nat) (hci : ci ≠ [])
    (sub : List Student) :
    assignedClasses (distributeSubGroup ci sub) = snakePattern ci sub.length := by
  by_cases h : sub.isEmpty
  · have hnil : sub = [] := List.isEmpty_iff.mp h
    subst hnil
    simp [distributeSubGroup, assignedClasses, snakePattern]
  · rw [distributeSubGroup, if_neg h]
    have hlen : (sortByScoreDesc sub).length = sub.length :=
      List.length_insertionSort _ _
    rw [assignedClasses, List.map_snd_zip, hlen]
    rw [snakePattern_length ci hci, hlen]

/-! ## Claim C1 -/

/-- C1: for every sub-group and every class count `K ≥ 1`, after snake
distribution the numbers of students assigned to any two class ids
`c1, c2 ∈ [1, K]` differ by at most 1.  This holds for every sub-group
length, including lengths that are not a multiple of `2K`. -/
theorem snake_distribution_counts_balanced (K : Nat) (ci : List Nat)
    (sub : List Student) (c1 c2 : Nat) (hK : 1 ≤ K)
    (hperm : ci.Perm (List.range' 1 K))
    (hc1 : 1 ≤ c1 ∧ c1 ≤ K) (hc2 : 1 ≤ c2 ∧ c2 ≤ K) :
    (assignedClasses (distributeSubGroup ci sub)).count c1 ≤
      (assignedClasses (distributeSubGroup ci sub)).count c2 + 1 ∧
    (assignedClasses (distributeSubGroup ci sub)).count c2 ≤
      (assignedClasses (distributeSubGroup ci sub)).count c1 + 1 := by
  have hm1 : c1 ∈ List.range' 1 K := mem_range_one_iff.mpr hc1
  have hm2 : c2 ∈ List.range' 1 K := mem_range_one_iff.mpr hc2
  have hci : ci ≠ [] := ne_nil_of_perm_range hK hperm
  rw [assignedClasses_distributeSubGroup ci hci]
  exact ⟨count_snakePattern_le K ci hK hperm hm1 hm2 _,
    count_snakePattern_le K ci hK hperm hm2 hm1 _⟩

/-- A concrete five-student sub-group used by the witnesses. -/
def subEx : List Student :=
  [⟨0, "男", 90, ""⟩, ⟨1, "女", 80, ""⟩, ⟨2, "男", 70, ""⟩,
   ⟨3, "女", 60, ""⟩, ⟨4, "男", 50, ""⟩]

theorem snake_distribution_counts_balanced_witness :
    (1 ≤ 2 ∧ List.Perm [2, 1] (List.range' 1 2) ∧
      (1 ≤ 1 ∧ 1 ≤ 2) ∧ (1 ≤ 2 ∧ 2 ≤ 2)) ∧
    ((assignedClasses (distributeSubGroup [2, 1] subEx)).count 1 ≤
      (assignedClasses (distributeSubGroup [2, 1] subEx)).count 2 + 1 ∧
    (assignedClasses (distributeSubGroup [2, 1] subEx)).count 2 ≤
      (assignedClasses (distributeSubGroup [2, 1] subEx)).count 1 + 1) :=
  ⟨⟨by decide, by decide, by decide, by decide⟩,
    snake_distribution_counts_balanced 2 [2, 1] subEx 1 2 (by decide)
      (by decide) (by decide) (by decide)⟩

/-! ## Claim C2 -/

/-- C2: in the snake assignment sequence of a sub-group distributed over
`K` classes, every window of `2K` consecutive positions lying entirely
within the sub-group's length contains each class id of `[1, K]` exactly
twice. -/
theorem snake_window_each_class_twice (K : Nat) (ci : List Nat)
    (sub : List Student) (c s : Nat) (hK : 1 ≤ K)
    (hperm : ci.Perm (List.range' 1 K)) (hc : 1 ≤ c ∧ c ≤ K)
    (hwin : s + 2 * K ≤ sub.length) :
    (((assignedClasses (distributeSubGroup ci sub)).drop s).take (2 * K)).count c
      = 2 := by
  have hci : ci ≠ [] := ne_nil_of_perm_range hK hperm
  have hlenci : ci.length = K := by
    rw [hperm.length_eq]
    simp
  have hL : (ci ++ ci.reverse).length = 2 * K := by
    simp [List.length_append, hlenci]
    ring
  have h1 : ci.count c = 1 :=
    count_range_perm_eq_one hperm (mem_range_one_iff.mpr hc)
  rw [assignedClasses_distributeSubGroup ci hci, ← hL,
    count_window_snakePattern ci hci sub.length s c (by rw [hL]; exact hwin),
    List.count_append, List.count_reverse, h1]

theorem snake_window_each_class_twice_witness :
    (1 ≤ 2 ∧ List.Perm [2, 1] (List.range' 1 2) ∧ (1 ≤ 1 ∧ 1 ≤ 2) ∧
      1 + 2 * 2 ≤ subEx.length) ∧
    (((assignedClasses (distributeSubGroup [2, 1] subEx)).drop 1).take
      (2 * 2)).count 1 = 2 :=
  ⟨⟨by decide, by decide, by decide, by decide⟩,
    snake_window_each_class_twice 2 [2, 1] subEx 1 1 (by decide) (by decide)
      (by decide) (by decide)⟩

/-! ## Claim C9 -/

theorem getElem?_flatten_replicate (b : List Nat) :
    ∀ (m i : Nat), i < m * b.length →
      ((List.replicate m b).flatten)[i]? = b[i % b.length]? := by
  intro m
  induction m with
  | zero =>
    intro i hi
    simp at hi
  | succ k ih =>
    intro i hi
    rw [List.replicate_succ, List.flatten_cons]
    by_cases h : i < b.length
    · rw [List.getElem?_append_left h, Nat.mod_eq_of_lt h]
    · push_neg at h
      have hik : i - b.length < k * b.length := by
        rw [Nat.succ_mul] at hi
        omega
      rw [List.getElem?_append_right h, ih (i - b.length) hik,
        Nat.mod_eq_sub_mod h]

theorem getElem?_snakePattern (ci : List Nat) (hci : ci ≠ []) (n i : Nat)
    (hi : i < n) :
    (snakePattern ci n)[i]? =
      (ci ++ ci.reverse)[i % (ci ++ ci.reverse).length]? := by
  have hb : ci ++ ci.reverse ≠ [] := fun h => hci (List.append_eq_nil.mp h).1
  have hL : 0 < (ci ++ ci.reverse).length := List.length_pos.mpr hb
  have hin : i < n * (ci ++ ci.reverse).length := by
    have := Nat.le_mul_of_pos_right n hL
    omega
  rw [snakePattern, List.getElem?_take_of_lt hi,
    getElem?_flatten_replicate _ n i hin]

theorem block_getElem_low (ci : List Nat) (i : Nat) (hi : i < ci.length) :
    (ci ++ ci.reverse)[i]? = ci[i]? := List.getElem?_append_left hi

theorem block_getElem_high (ci : List Nat) (i : Nat) (hi : ci.length ≤ i)
    (hi2 : i < 2 * ci.length) :
    (ci ++ ci.reverse)[i]? = ci[2 * ci.length - 1 - i]? := by
  have hrev : i - ci.length < ci.length := by omega
  rw [List.getElem?_append_right hi, List.getElem?_reverse hrev]
  congr 1
  omega

/-- C9: in the snake sequence the two positions at each reversal fold get
the same class id: for every cycle `j`, positions `2jK + K - 1` and
`2jK + K` both hold the last element of the base permutation, and for
`j ≥ 1` positions `2jK - 1` and `2jK` both hold its first element — so at
every fold two consecutively ranked students land in the same class. -/
theorem snake_fold_positions (K : Nat) (ci : List Nat) (n j : Nat)
    (hK : 1 ≤ K) (hlen : ci.length = K) :
    (2 * K * j + K < n →
      (snakePattern ci n)[2 * K * j + K - 1]? = ci.getLast? ∧
      (snakePattern ci n)[2 * K * j + K]? = ci.getLast?) ∧
    (1 ≤ j → 2 * K * j < n →
      (snakePattern ci n)[2 * K * j - 1]? = ci.head? ∧
      (snakePattern ci n)[2 * K * j]? = ci.head?) := by
  have hci : ci ≠ [] := by
    intro h
    subst h
    simp at hlen
    omega
  have hL : (ci ++ ci.reverse).length = 2 * K := by
    simp [hlen]
    ring
  have hlast : ci.getLast? = ci[K - 1]? := by
    rw [List.getLast?_eq_getElem?, hlen]
  have hhead : ci.head? = ci[0]? := List.head?_eq_getElem? ci
  constructor
  · intro hn
    constructor
    · rw [getElem?_snakePattern ci hci n _ (by omega), hL]
      have e1 : (2 * K * j + K - 1) % (2 * K) = K - 1 := by
        have e : 2 * K * j + K - 1 = (K - 1) + 2 * K * j := by omega
        rw [e, Nat.add_mul_mod_self_left, Nat.mod_eq_of_lt (by omega)]
      rw [e1, block_getElem_low ci (K - 1) (by omega), hlast]
    · rw [getElem?_snakePattern ci hci n _ hn, hL]
      have e2 : (2 * K * j + K) % (2 * K) = K := by
        have e : 2 * K * j + K = K + 2 * K * j := by omega
        rw [e, Nat.add_mul_mod_self_left, Nat.mod_eq_of_lt (by omega)]
      rw [e2, block_getElem_high ci K (by omega) (by omega), hlast, hlen]
      congr 1
      omega
  · intro hj hn
    obtain ⟨j2, rfl⟩ : ∃ j2, j = j2 + 1 := ⟨j - 1, by omega⟩
    have hr : 2 * K * (j2 + 1) = 2 * K * j2 + 2 * K := by ring
    constructor
    · rw [getElem?_snakePattern ci hci n _ (by omega), hL]
      have e3 : (2 * K * (j2 + 1) - 1) % (2 * K) = 2 * K - 1 := by
        have e : 2 * K * (j2 + 1) - 1 = (2 * K - 1) + 2 * K * j2 := by omega
        rw [e, Nat.add_mul_mod_self_left, Nat.mod_eq_of_lt (by omega)]
      rw [e3, block_getElem_high ci (2 * K - 1) (by omega) (by omega), hhead,
        hlen]
      congr 1
      omega
    · rw [getElem?_snakePattern ci hci n _ hn, hL]
      have e4 : (2 * K * (j2 + 1)) % (2 * K) = 0 := Nat.mul_mod_right _ _
      rw [e4, block_getElem_low ci 0 (by omega), hhead]

theorem snake_fold_positions_witness :
    ((snakePattern [1, 2] 10)[2 * 2 * 1 + 2 - 1]? = List.getLast? [1, 2] ∧
      (snakePattern [1, 2] 10)[2 * 2 * 1 + 2]? = List.getLast? [1, 2]) ∧
    ((snakePattern [1, 2] 10)[2 * 2 * 1 - 1]? = List.head? [1, 2] ∧
      (snakePattern [1, 2] 10)[2 * 2 * 1]? = List.head? [1, 2]) :=
  ⟨(snake_fold_positions 2 [1, 2] 10 1 (by decide) (by decide)).1 (by decide),
   (snake_fold_positions 2 [1, 2] 10 1 (by decide) (by decide)).2 (by decide)
     (by decide)⟩

/-! ## Claim C5 -/

theorem countP_score_mono (l : List Student) (s t : Student)
    (h : t.score ≤ s.score) :
    l.countP (fun u => s.score < u.score) ≤
      l.countP (fun u => t.score < u.score) :=
  List.countP_mono_left (fun x _ hx => by
    simp only [decide_eq_true_eq] at hx ⊢
    omega)

theorem countP_score_strict (l : List Student) {s t : Student} (hs : s ∈ l)
    (hst : t.score < s.score) :
    l.countP (fun u => s.score < u.score) <
      l.countP (fun u => t.score < u.score) := by
  obtain ⟨l1, l2, rfl⟩ := List.append_of_mem hs
  rw [List.countP_append, List.countP_append, List.countP_cons,
    List.countP_cons]
  have h1 := countP_score_mono l1 s t (le_of_lt hst)
  have h2 := countP_score_mono l2 s t (le_of_lt hst)
  have hP : decide (s.score < s.score) = false := by simp
  have hQ : decide (t.score < s.score) = true := by simp [hst]
  simp [hP, hQ]
  omega

theorem exists_max_score : ∀ (l : List Student), l ≠ [] →
    ∃ u ∈ l, ∀ t ∈ l, t.score ≤ u.score := by
  intro l
  induction l with
  | nil => simp
  | cons a l ih =>
    intro _
    by_cases h : l = []
    · subst h
      exact ⟨a, by simp, by simp⟩
    · obtain ⟨u, hu, hmax⟩ := ih h
      by_cases hau : a.score ≤ u.score
      · refine ⟨u, List.mem_cons_of_mem _ hu, ?_⟩
        intro t ht
        rcases List.mem_cons.mp ht with rfl | htl
        · exact hau
        · exact hmax t htl
      · push_neg at hau
        refine ⟨a, List.mem_cons_self _ _, ?_⟩
        intro t ht
        rcases List.mem_cons.mp ht with rfl | htl
        · exact le_refl _
        · exact le_trans (hmax t htl) (le_of_lt hau)

/-- C5: the grade rank computed over the entire roster is one plus the
number of students with a strictly greater score; students with equal
scores share the same rank, a strictly higher score gives a strictly
smaller rank, and on a nonempty roster the minimum rank assigned is 1. -/
theorem grade_rank_min_tie_semantics (roster : List Student) (s t : Student)
    (hs : s ∈ roster) (ht : t ∈ roster) :
    gradeRank roster s = roster.countP (fun u => s.score < u.score) + 1 ∧
    (s.score = t.score → gradeRank roster s = gradeRank roster t) ∧
    (t.score < s.score → gradeRank roster s < gradeRank roster t) ∧
    1 ≤ gradeRank roster s ∧
    ∃ u ∈ roster, gradeRank roster u = 1 := by
  refine ⟨rfl, ?_, ?_, ?_, ?_⟩
  · intro h
    unfold gradeRank
    rw [h]
  · intro h
    have := countP_score_strict roster hs h
    unfold gradeRank
    omega
  · unfold gradeRank
    omega
  · obtain ⟨u, hu, hmax⟩ := exists_max_score roster (List.ne_nil_of_mem hs)
    refine ⟨u, hu, ?_⟩
    unfold gradeRank
    have hz : roster.countP (fun x => u.score < x.score) = 0 := by
      rw [List.countP_eq_zero]
      intro a ha
      simp only [decide_eq_true_eq, not_lt]
      exact hmax a ha
    rw [hz]

theorem grade_rank_min_tie_semantics_witness :
    ((⟨0, "男", 90, ""⟩ : Student) ∈ subEx ∧
      (⟨1, "女", 80, ""⟩ : Student) ∈ subEx) ∧
    (gradeRank subEx ⟨0, "男", 90, ""⟩ =
        subEx.countP (fun u => (90 : Int) < u.score) + 1 ∧
      ((90 : Int) = (80 : Int) →
        gradeRank subEx ⟨0, "男", 90, ""⟩ = gradeRank subEx ⟨1, "女", 80, ""⟩) ∧
      ((80 : Int) < (90 : Int) →
        gradeRank subEx ⟨0, "男", 90, ""⟩ < gradeRank subEx ⟨1, "女", 80, ""⟩) ∧
      1 ≤ gradeRank subEx ⟨0, "男", 90, ""⟩ ∧
      ∃ u ∈ subEx, gradeRank subEx u = 1) :=
  ⟨⟨by decide, by decide⟩,
    grade_rank_min_tie_semantics subEx ⟨0, "男", 90, ""⟩ ⟨1, "女", 80, ""⟩
      (by decide) (by decide)⟩

/-! ## Claim C4 -/

theorem tier_partition (topN botN : Nat) (l : List Student)
    (hbot : 1 ≤ botN) (hsize : topN + botN ≤ l.length) :
    tierTop topN l ++ tierMid topN botN l ++ tierBot botN l = l := by
  have hb0 : botN ≠ 0 := by omega
  rw [tierTop, tierMid, tierBot, if_neg hb0, if_neg hb0]
  have h1 : l.take topN = (l.take (l.length - botN)).take topN := by
    rw [List.take_take, Nat.min_eq_left (by omega)]
  rw [h1, List.take_append_drop, List.take_append_drop]

/-- C4 (amended): for `bot_N ≥ 1`, the three tiers sliced from the
score-descending roster concatenate back to the roster (they are exhaustive
with the lengths `top_N`, rest, `bot_N`), and on a duplicate-free roster
they are pairwise disjoint.  The restriction `bot_N ≥ 1` is forced by the
counterexample `tiers_zero_bottom_counterexample`: the slice
`df.iloc[-bot_N:]` returns the whole frame when `bot_N = 0`. -/
theorem tiers_partition_roster (topN botN : Nat) (l : List Student)
    (hbot : 1 ≤ botN) (hsize : topN + botN ≤ l.length) :
    tierTop topN l ++ tierMid topN botN l ++ tierBot botN l = l ∧
    (l.Nodup →
      (∀ x ∈ tierTop topN l,
        x ∉ tierMid topN botN l ∧ x ∉ tierBot botN l) ∧
      (∀ x ∈ tierMid topN botN l, x ∉ tierBot botN l)) := by
  refine ⟨tier_partition topN botN l hbot hsize, ?_⟩
  intro hnd
  rw [← tier_partition topN botN l hbot hsize] at hnd
  obtain ⟨h12, h3, h123⟩ := List.nodup_append.mp hnd
  obtain ⟨h1, h2, h12d⟩ := List.nodup_append.mp h12
  constructor
  · intro x hx
    exact ⟨fun hx2 => h12d hx hx2,
      fun hx3 => h123 (List.mem_append_left _ hx) hx3⟩
  · intro x hx hx3
    exact h123 (List.mem_append_right _ hx) hx3

/-- A one-student roster exhibiting the `bot_N = 0` slicing quirk. -/
def exC4 : List Student := [⟨0, "男", 50, ""⟩]

theorem tiers_zero_bottom_counterexample :
    1 + 0 ≤ exC4.length ∧
    ¬ (∀ x ∈ tierTop 1 exC4, x ∉ tierBot 0 exC4) := by decide

theorem tiers_partition_roster_witness :
    (1 ≤ 1 ∧ 1 + 1 ≤ subEx.length) ∧
    (tierTop 1 subEx ++ tierMid 1 1 subEx ++ tierBot 1 subEx = subEx ∧
    (subEx.Nodup →
      (∀ x ∈ tierTop 1 subEx, x ∉ tierMid 1 1 subEx ∧ x ∉ tierBot 1 subEx) ∧
      (∀ x ∈ tierMid 1 1 subEx, x ∉ tierBot 1 subEx))) :=
  ⟨⟨by decide, by decide⟩,
    tiers_partition_roster 1 1 subEx (by decide) (by decide)⟩

/-! ## Claim C6 -/

/-- C6: the run aborts (returns `none`, producing no output) exactly when
the cleaned roster has fewer than `top_N + bot_N` students — the guard is
checked before any tier is sliced or any sub-group distributed — and a
roster of exactly `top_N + bot_N` students proceeds with an empty middle
tier. -/
theorem run_insufficient_data (K topPer botPer : Nat) (hasRural : Bool)
    (perms : Nat → List Nat) (roster : List Student) :
    (run K topPer botPer hasRural perms roster = none ↔
      roster.length < topPer * K + botPer * K) ∧
    (roster.length = topPer * K + botPer * K →
      tierMid (topPer * K) (botPer * K) (sortByScoreDesc roster) = []) := by
  have hlen : (sortByScoreDesc roster).length = roster.length :=
    List.length_insertionSort _ _
  constructor
  · constructor
    · intro hnone
      rw [run] at hnone
      by_cases h : (sortByScoreDesc roster).length < topPer * K + botPer * K
      · omega
      · rw [if_neg h] at hnone
        simp at hnone
    · intro hlt
      rw [run, if_pos (by omega)]
  · intro heq
    rw [tierMid]
    by_cases hb : botPer * K = 0
    · rw [if_pos hb]
    · rw [if_neg hb]
      apply List.drop_eq_nil_of_le
      rw [List.length_take, hlen, heq]
      omega

theorem run_insufficient_data_witness :
    (run 1 1 1 false (fun _ => [1]) exC4 = none ↔ exC4.length < 1 * 1 + 1 * 1) ∧
    (exC4.length = 1 * 1 + 1 * 1 →
      tierMid (1 * 1) (1 * 1) (sortByScoreDesc exC4) = []) :=
  run_insufficient_data 1 1 1 false (fun _ => [1]) exC4

/-! ## Claim C8 -/

theorem runGroups_length (K topPer botPer : Nat) (hasRural : Bool)
    (roster : List Student) :
    (runGroups K topPer botPer hasRural roster).length = numDraws hasRural := by
  rw [runGroups, numDraws]
  cases hasRural <;> simp [subGroups]

/-- C8: the allocation is a function of the roster and of the finitely many
per-sub-group permutation draws alone: if two draw sources agree on the
first `numDraws` draws (one per sub-group), the two runs produce identical
class assignments for every student.  In particular, for a fixed draw
source the run is deterministic. -/
theorem run_deterministic_given_draws (K topPer botPer : Nat)
    (hasRural : Bool) (perms1 perms2 : Nat → List Nat)
    (roster : List Student)
    (h : ∀ i, i < numDraws hasRural → perms1 i = perms2 i) :
    run K topPer botPer hasRural perms1 roster =
      run K topPer botPer hasRural perms2 roster := by
  rw [run, run]
  by_cases hc : (sortByScoreDesc roster).length < topPer * K + botPer * K
  · rw [if_pos hc, if_pos hc]
  · rw [if_neg hc, if_neg hc]
    have hmap : runAssigned K topPer botPer hasRural perms1 roster =
        runAssigned K topPer botPer hasRural perms2 roster := by
      rw [runAssigned, runAssigned]
      congr 1
      apply List.map_congr_left
      intro p hp
      have hplt : p.1 < (runGroups K topPer botPer hasRural roster).length :=
        List.fst_lt_of_mem_enum hp
      rw [runGroups_length] at hplt
      rw [h p.1 hplt]
    rw [hmap]

theorem run_deterministic_given_draws_witness :
    (∀ i, i < numDraws false → (fun _ => [2, 1] : Nat → List Nat) i =
      (fun j => if j < 6 then [2, 1] else [1, 2]) i) ∧
    run 2 1 1 false (fun _ => [2, 1]) subEx =
      run 2 1 1 false (fun j => if j < 6 then [2, 1] else [1, 2]) subEx :=
  ⟨by decide,
    run_deterministic_given_draws 2 1 1 false (fun _ => [2, 1])
      (fun j => if j < 6 then [2, 1] else [1, 2]) subEx (by decide)⟩

/-! ## Claim C3 -/

theorem map_fst_distributeSubGroup (ci : List Nat) (hci : ci ≠ [])
    (sub : List Student) :
    (distributeSubGroup ci sub).map Prod.fst = sortByScoreDesc sub := by
  by_cases h : sub.isEmpty
  · have hnil : sub = [] := List.isEmpty_iff.mp h
    subst hnil
    simp [distributeSubGroup, sortByScoreDesc]
  · rw [distributeSubGroup, if_neg h]
    apply List.map_fst_zip
    rw [snakePattern_length ci hci]

theorem count_fst_distributeSubGroup (ci : List Nat) (hci : ci ≠ [])
    (sub : List Student) (s : Student) :
    ((distributeSubGroup ci sub).map Prod.fst).count s = sub.count s := by
  rw [map_fst_distributeSubGroup ci hci]
  exact (List.perm_insertionSort _ _).count_eq s

theorem count_filter_eq_zero_of_neg {p : Student → Bool} {l : List Student}
    {s : Student} (h : p s = false) : (l.filter p).count s = 0 := by
  apply List.count_eq_zero.mpr
  intro hmem
  have hp := (List.mem_filter.mp hmem).2
  rw [h] at hp
  exact Bool.noConfusion hp

theorem sum_counts_subGroups (hasRural : Bool) (layer : List Student)
    (s : Student) (hg : s.gender = "男" ∨ s.gender = "女")
    (hr : hasRural = true → s.rural = "城区" ∨ s.rural = "乡下") :
    ((subGroups hasRural layer).map (fun g => g.count s)).sum =
      layer.count s := by
  cases hasRural with
  | false =>
    have hsg : subGroups false layer =
        [layer.filter (fun t => t.gender == "男"),
         layer.filter (fun t => t.gender == "女")] := rfl
    rw [hsg]
    rcases hg with h | h
    · have h1 : (layer.filter (fun t => t.gender == "男")).count s =
          layer.count s := List.count_filter (by simp [h])
      have h2 : (layer.filter (fun t => t.gender == "女")).count s = 0 :=
        count_filter_eq_zero_of_neg (by simp [h])
      simp [h1, h2]
    · have h1 : (layer.filter (fun t => t.gender == "男")).count s = 0 :=
        count_filter_eq_zero_of_neg (by simp [h])
      have h2 : (layer.filter (fun t => t.gender == "女")).count s =
          layer.count s := List.count_filter (by simp [h])
      simp [h1, h2]
  | true =>
    have hsg : subGroups true layer =
        [layer.filter (fun t => t.gender == "男" && t.rural == "城区"),
         layer.filter (fun t => t.gender == "男" && t.rural == "乡下"),
         layer.filter (fun t => t.gender == "女" && t.rural == "城区"),
         layer.filter (fun t => t.gender == "女" && t.rural == "乡下")] := rfl
    rw [hsg]
    rcases hg with hgm | hgf <;> rcases hr rfl with hru | hrr
    · have h1 : (layer.filter
          (fun t => t.gender == "男" && t.rural == "城区")).count s =
          layer.count s := List.count_filter (by simp [hgm, hru])
      have h2 : (layer.filter
          (fun t => t.gender == "男" && t.rural == "乡下")).count s = 0 :=
        count_filter_eq_zero_of_neg (by simp [hgm, hru])
      have h3 : (layer.filter
          (fun t => t.gender == "女" && t.rural == "城区")).count s = 0 :=
        count_filter_eq_zero_of_neg (by simp [hgm])
      have h4 : (layer.filter
          (fun t => t.gender == "女" && t.rural == "乡下")).count s = 0 :=
        count_filter_eq_zero_of_neg (by simp [hgm])
      simp [h1, h2, h3, h4]
    · have h1 : (layer.filter
          (fun t => t.gender == "男" && t.rural == "城区")).count s = 0 :=
        count_filter_eq_zero_of_neg (by simp [hgm, hrr])
      have h2 : (layer.filter
          (fun t => t.gender == "男" && t.rural == "乡下")).count s =
          layer.count s := List.count_filter (by simp [hgm, hrr])
      have h3 : (layer.filter
          (fun t => t.gender == "女" && t.rural == "城区")).count s = 0 :=
        count_filter_eq_zero_of_neg (by simp [hgm])
      have h4 : (layer.filter
          (fun t => t.gender == "女" && t.rural == "乡下")).count s = 0 :=
        count_filter_eq_zero_of_neg (by simp [hgm])
      simp [h1, h2, h3, h4]
    · have h1 : (layer.filter
          (fun t => t.gender == "男" && t.rural == "城区")).count s = 0 :=
        count_filter_eq_zero_of_neg (by simp [hgf])
      have h2 : (layer.filter
          (fun t => t.gender == "男" && t.rural == "乡下")).count s = 0 :=
        count_filter_eq_zero_of_neg (by simp [hgf])
      have h3 : (layer.filter
          (fun t => t.gender == "女" && t.rural == "城区")).count s =
          layer.count s := List.count_filter (by simp [hgf, hru])
      have h4 : (layer.filter
          (fun t => t.gender == "女" && t.rural == "乡下")).count s = 0 :=
        count_filter_eq_zero_of_neg (by simp [hgf, hru])
      simp [h1, h2, h3, h4]
    · have h1 : (layer.filter
          (fun t => t.gender == "男" && t.rural == "城区")).count s = 0 :=
        count_filter_eq_zero_of_neg (by simp [hgf])
      have h2 : (layer.filter
          (fun t => t.gender == "男" && t.rural == "乡下")).count s = 0 :=
        count_filter_eq_zero_of_neg (by simp [hgf])
      have h3 : (layer.filter
          (fun t => t.gender == "女" && t.rural == "城区")).count s = 0 :=
        count_filter_eq_zero_of_neg (by simp [hgf, hrr])
      have h4 : (layer.filter
          (fun t => t.gender == "女" && t.rural == "乡下")).count s =
          layer.count s := List.count_filter (by simp [hgf, hrr])
      simp [h1, h2, h3, h4]

theorem count_runGroups (K topPer botPer : Nat) (hasRural : Bool)
    (roster : List Student) (s : Student) (hbot : 1 ≤ botPer * K)
    (hsize : topPer * K + botPer * K ≤ roster.length)
    (hg : s.gender = "男" ∨ s.gender = "女")
    (hr : hasRural = true → s.rural = "城区" ∨ s.rural = "乡下") :
    ((runGroups K topPer botPer hasRural roster).map (fun g => g.count s)).sum
      = roster.count s := by
  have hlen : (sortByScoreDesc roster).length = roster.length :=
    List.length_insertionSort _ _
  have hpart := tier_partition (topPer * K) (botPer * K)
    (sortByScoreDesc roster) hbot (by omega)
  rw [runGroups]
  simp only [List.map_cons, List.map_nil, List.flatten_cons, List.flatten_nil,
    List.append_nil, List.map_append, List.sum_append]
  rw [sum_counts_subGroups hasRural _ s hg hr,
    sum_counts_subGroups hasRural _ s hg hr,
    sum_counts_subGroups hasRural _ s hg hr]
  have hco : (tierTop (topPer * K) (sortByScoreDesc roster)).count s +
      (tierMid (topPer * K) (botPer * K) (sortByScoreDesc roster)).count s +
      (tierBot (botPer * K) (sortByScoreDesc roster)).count s =
      (sortByScoreDesc roster).count s := by
    conv_rhs => rw [← hpart]
    rw [List.count_append, List.count_append]
  have hsp : (sortByScoreDesc roster).count s = roster.count s :=
    (List.perm_insertionSort _ _).count_eq s
  omega

theorem count_fst_runAssigned (K : Nat) (perms : Nat → List Nat)
    (hK : 1 ≤ K) (hperms : ∀ i, (perms i).Perm (List.range' 1 K))
    (s : Student) :
    ∀ (start : Nat) (groups : List (List Student)),
      ((((groups.enumFrom start).map
          (fun g => distributeSubGroup (perms g.1) g.2)).flatten).map
        Prod.fst).count s = (groups.map (fun g => g.count s)).sum := by
  intro start groups
  induction groups generalizing start with
  | nil => simp
  | cons g gs ih =>
    rw [List.enumFrom_cons]
    simp only [List.map_cons, List.flatten_cons, List.map_append,
      List.count_append, List.sum_cons]
    rw [ih (start + 1)]
    congr 1
    exact count_fst_distributeSubGroup (perms start)
      (ne_nil_of_perm_range hK (hperms start)) g s

theorem mem_snakePattern {ci : List Nat} {n c : Nat}
    (hc : c ∈ snakePattern ci n) : c ∈ ci := by
  rw [snakePattern] at hc
  have hc2 := (List.take_sublist _ _).subset hc
  obtain ⟨l2, hl2, hcl⟩ := List.mem_flatten.mp hc2
  have hb : l2 = ci ++ ci.reverse := List.eq_of_mem_replicate hl2
  subst hb
  rcases List.mem_append.mp hcl with h | h
  · exact h
  · exact List.mem_reverse.mp h

/-- C3 (amended): whenever the run succeeds, every roster student whose
gender is one of the two recognized literals (and, in four-way mode, whose
origin is one of the two recognized literals) appears in the final output
with its roster multiplicity — in particular exactly once when the roster
lists it once — and every class assignment in the output is an integer in
`[1, K]`.  The restrictions are forced by
`run_output_counterexample`: a row with any other gender (or origin)
value is silently dropped by the demographic filters, and with a zero
bottom quota the `df.iloc[-0:]` slice duplicates the top tier. -/
theorem run_places_each_recognized_student_once (K topPer botPer : Nat)
    (hasRural : Bool) (perms : Nat → List Nat) (roster : List Student)
    (out : List (Student × Nat)) (s : Student) (hK : 1 ≤ K)
    (hbot : 1 ≤ botPer * K)
    (hperms : ∀ i, (perms i).Perm (List.range' 1 K))
    (hrun : run K topPer botPer hasRural perms roster = some out)
    (hg : s.gender = "男" ∨ s.gender = "女")
    (hr : hasRural = true → s.rural = "城区" ∨ s.rural = "乡下") :
    (out.map Prod.fst).count s = roster.count s ∧
    ∀ p ∈ out, 1 ≤ p.2 ∧ p.2 ≤ K := by
  have hlen : (sortByScoreDesc roster).length = roster.length :=
    List.length_insertionSort _ _
  have hsize : topPer * K + botPer * K ≤ roster.length := by
    by_contra hlt
    rw [run, if_pos (by omega)] at hrun
    exact Option.noConfusion hrun
  have hout : out = finalSort (runAssigned K topPer botPer hasRural perms roster) := by
    rw [run, if_neg (by omega)] at hrun
    exact (Option.some.inj hrun).symm
  subst hout
  constructor
  · have hperm1 : (finalSort (runAssigned K topPer botPer hasRural perms roster)).Perm
        (runAssigned K topPer botPer hasRural perms roster) :=
      List.perm_insertionSort _ _
    rw [(hperm1.map Prod.fst).count_eq]
    rw [runAssigned]
    simp only [List.enum]
    rw [count_fst_runAssigned K perms hK hperms s 0
      (runGroups K topPer botPer hasRural roster)]
    exact count_runGroups K topPer botPer hasRural roster s hbot hsize hg hr
  · intro p hp
    rw [finalSort, List.mem_insertionSort] at hp
    rw [runAssigned] at hp
    obtain ⟨blk, hblk, hpblk⟩ := List.mem_flatten.mp hp
    obtain ⟨g, hg2, rfl⟩ := List.mem_map.mp hblk
    by_cases hemp : g.2.isEmpty
    · rw [distributeSubGroup, if_pos hemp] at hpblk
      simp at hpblk
    · rw [distributeSubGroup, if_neg hemp] at hpblk
      obtain ⟨a, c⟩ := p
      have hz := List.of_mem_zip hpblk
      have hcp : c ∈ perms g.1 := mem_snakePattern hz.2
      have hcr : c ∈ List.range' 1 K := (hperms g.1).subset hcp
      exact mem_range_one_iff.mp hcr

/-- A roster with one recognized and one unrecognized gender value. -/
def exC3 : List Student := [⟨0, "男", 90, ""⟩, ⟨1, "x", 80, ""⟩]

/-- A two-student roster with recognized demographics. -/
def exC3w : List Student := [⟨0, "男", 90, ""⟩, ⟨1, "女", 80, ""⟩]

/-- Counterexample to C3 as stated: (a) a loaded row whose score is a valid
number but whose gender is not 男/女 is silently absent from the successful
run's output (count 0, not 1); (b) with a zero bottom quota
(`bottom_n_per_class = 0`) the `df.iloc[-0:]` slice is the whole roster, so
a top-tier student is output twice. -/
theorem run_output_counterexample :
    ((⟨1, "x", 80, ""⟩ : Student) ∈ exC3 ∧
      (run 1 1 1 false (fun _ => [1]) exC3).map
        (fun out => (out.map Prod.fst).count ⟨1, "x", 80, ""⟩) = some 0) ∧
    ((⟨0, "男", 50, ""⟩ : Student) ∈ exC4 ∧
      (run 1 1 0 false (fun _ => [1]) exC4).map
        (fun out => (out.map Prod.fst).count ⟨0, "男", 50, ""⟩) = some 2) := by
  decide

theorem run_places_each_recognized_student_once_witness :
    (run 1 1 1 false (fun _ => [1]) exC3w =
        some [(⟨0, "男", 90, ""⟩, 1), (⟨1, "女", 80, ""⟩, 1)]) ∧
    (([(⟨0, "男", 90, ""⟩, 1), (⟨1, "女", 80, ""⟩, 1)].map Prod.fst).count
        (⟨0, "男", 90, ""⟩ : Student) = exC3w.count ⟨0, "男", 90, ""⟩ ∧
      ∀ p ∈ [((⟨0, "男", 90, ""⟩ : Student), 1), (⟨1, "女", 80, ""⟩, 1)],
        1 ≤ p.2 ∧ p.2 ≤ 1) :=
  ⟨by decide,
    run_places_each_recognized_student_once 1 1 1 false (fun _ => [1]) exC3w
      [(⟨0, "男", 90, ""⟩, 1), (⟨1, "女", 80, ""⟩, 1)] ⟨0, "男", 90, ""⟩
      (by decide) (by decide)
      (fun _ => (by decide : ([1] : List Nat).Perm (List.range' 1 1)))
      (by decide) (by decide) (by decide)⟩

/-! ## Claim C10 -/

/-- A labelled roster whose two classes have different sizes (1 and 2). -/
def exC10 : List (Student × Nat) :=
  [(⟨0, "男", 0, ""⟩, 1), (⟨1, "男", 10, ""⟩, 2), (⟨2, "女", 10, ""⟩, 2)]

theorem statRows_exC10 :
    statRows exC10 =
      [calcStats [(⟨0, "男", 0, ""⟩, 1)],
       calcStats [(⟨1, "男", 10, ""⟩, 2), (⟨2, "女", 10, ""⟩, 2)]] := by
  have hkeys : classKeys exC10 = [1, 2] := by decide
  have hf1 : exC10.filter (fun p => p.2 == 1) = [(⟨0, "男", 0, ""⟩, 1)] := by
    decide
  have hf2 : exC10.filter (fun p => p.2 == 2) =
      [(⟨1, "男", 10, ""⟩, 2), (⟨2, "女", 10, ""⟩, 2)] := by decide
  rw [statRows, hkeys]
  simp only [List.map_cons, List.map_nil]
  rw [hf1, hf2]

/-- C10: the derived 平均 row of the balance report is the unweighted
column-wise arithmetic mean of the per-class rows — the mean of the
class-level statistics, not a recomputation over all students — so on a
roster whose classes have different sizes (here 1 and 2) its mean-score
entry (5) differs from the mean score over the whole roster (20/3). -/
theorem avg_row_is_mean_of_class_rows :
    (∀ df : List (Student × Nat),
      (avgRow df).avgScore = meanQ ((statRows df).map StatRow.avgScore) ∧
      (avgRow df).total = meanQ ((statRows df).map StatRow.total)) ∧
    (exC10.filter (fun p => p.2 == 1)).length ≠
      (exC10.filter (fun p => p.2 == 2)).length ∧
    (avgRow exC10).avgScore ≠ wholeRosterMean exC10 := by
  refine ⟨fun df => ⟨rfl, rfl⟩, by decide, ?_⟩
  have hA : (avgRow exC10).avgScore = 5 := by
    show meanQ ((statRows exC10).map StatRow.avgScore) = 5
    rw [statRows_exC10]
    simp only [List.map_cons, List.map_nil, calcStats]
    norm_num [meanQ, round2, roundHalfEven]
  have hB : wholeRosterMean exC10 = 20 / 3 := by
    rw [wholeRosterMean, exC10]
    norm_num [meanQ]
  rw [hA, hB]
  norm_num

end Sunshine
